import Mathlib

/-!
Formal model of the dbrevel query-orchestration core.

Each definition is a shallow embedding of the corresponding Python function of
the repository (`backend/app/...`), translated statement by statement.  Strings
are processed as `List Char`; Python `dict` values appearing in rows, pipelines
and JSON documents are modelled by the inductive type `Json` below, with object
fields kept as ordered association lists exactly as Python 3 dicts preserve
insertion order.  Numeric JSON literals are modelled as integers (no input in
this development contains a float).  Fallible Python code that raises becomes
`Except`/`Option`-valued; the error enumeration mirrors the application's
exception taxonomy.
-/

set_option maxRecDepth 100000

namespace DbRevel

/-- ASCII part of Python's whitespace class `\s`, which is also the default
strip set of `str.strip` for the ASCII inputs handled here. -/
def pySpace (c : Char) : Bool :=
  c == ' ' || c == '\t' || c == '\n' || c == '\r' || c == '\x0b' || c == '\x0c'

/-- `str.strip()` on a character list. -/
def stripL (cs : List Char) : List Char :=
  ((cs.dropWhile pySpace).reverse.dropWhile pySpace).reverse

/-- `str.lstrip()` would be `dropWhile`; `str.rstrip(';')` strips trailing
semicolons only (used by `PostgresAdapter.execute`). -/
def rstripSemi (cs : List Char) : List Char :=
  (cs.reverse.dropWhile (· == ';')).reverse

/-- Python substring test `needle in haystack`. -/
def isSubL (needle haystack : List Char) : Bool :=
  (List.range (haystack.length + 1)).any fun i => needle.isPrefixOf (haystack.drop i)

/-- Python `str.find`: index of the first occurrence of `needle`, if any. -/
def findSubL (needle haystack : List Char) : Option Nat :=
  (List.range (haystack.length + 1)).find? fun i => needle.isPrefixOf (haystack.drop i)

/-- Index of the first occurrence of a single character (`str.find`). -/
def findCharL (c : Char) (cs : List Char) : Option Nat :=
  cs.findIdx? (· == c)

/-- Index of the last occurrence of a single character (`str.rfind`). -/
def rfindCharL (c : Char) (cs : List Char) : Option Nat :=
  match cs.reverse.findIdx? (· == c) with
  | some j => some (cs.length - 1 - j)
  | none => none

/-- `str.count` for a single character. -/
def countCharL (c : Char) (cs : List Char) : Nat :=
  cs.countP (· == c)

/-- `str.upper()` (ASCII). -/
def upperL (cs : List Char) : List Char :=
  cs.map Char.toUpper

/-- `str.split("\n")`. -/
def splitNl (cs : List Char) : List (List Char) :=
  cs.splitOn '\n'

/-- JSON values as produced by Python's `json` module on the inputs this
development needs; object member order is the textual order, as in CPython. -/
inductive Json where
  | null : Json
  | bool (b : Bool) : Json
  | num (n : Int) : Json
  | str (s : String) : Json
  | arr (xs : List Json) : Json
  | obj (kvs : List (String × Json)) : Json
  deriving Repr

/-- Whitespace the `json` module skips between tokens. -/
def jsonWs (c : Char) : Bool :=
  c == ' ' || c == '\t' || c == '\n' || c == '\r'

/-- Drop inter-token JSON whitespace. -/
def skipJWs (cs : List Char) : List Char :=
  cs.dropWhile jsonWs

/-- Body of a JSON string literal, after the opening quote.  The standard
escapes are decoded; `\uXXXX` escapes do not occur in this development and
make the parse fail. -/
def parseStrBody (fuel : Nat) (cs : List Char) : Option (String × List Char) :=
  match fuel, cs with
  | 0, _ => none
  | _, [] => none
  | f + 1, c :: rest =>
    if c = '"' then some ("", rest)
    else if c = '\\' then
      match rest with
      | [] => none
      | e :: rest2 =>
        let esc : Option Char :=
          if e = '"' then some '"'
          else if e = '\\' then some '\\'
          else if e = '/' then some '/'
          else if e = 'n' then some '\n'
          else if e = 't' then some '\t'
          else if e = 'r' then some '\r'
          else if e = 'b' then some '\x08'
          else if e = 'f' then some '\x0c'
          else none
        match esc with
        | some ch => (parseStrBody f rest2).map fun p => (ch.toString ++ p.1, p.2)
        | none => none
    else (parseStrBody f rest).map fun p => (c.toString ++ p.1, p.2)

/-- Decimal digits to a natural number. -/
def digitsToNat (ds : List Char) : Nat :=
  ds.foldl (fun acc d => acc * 10 + (d.toNat - '0'.toNat)) 0

/-- JSON integer literal grammar `-?(0|[1-9][0-9]*)`, rejecting a following
`.`/`e`/`E` (floats are outside this model). -/
def parseIntLit (cs : List Char) : Option (Int × List Char) :=
  let core (ds : List Char) : Option (Nat × List Char) :=
    match ds with
    | [] => none
    | d :: rest =>
      if d = '0' then some (0, rest)
      else if d.isDigit then
        let digits := d :: rest.takeWhile Char.isDigit
        let rest2 := rest.dropWhile Char.isDigit
        some (digitsToNat digits, rest2)
      else none
  let (neg, body) : Bool × List Char :=
    match cs with
    | '-' :: t => (true, t)
    | _ => (false, cs)
  match core body with
  | none => none
  | some (n, rest) =>
    match rest with
    | c :: _ =>
      if c = '.' || c = 'e' || c = 'E' then none
      else some (if neg then -(n : Int) else (n : Int), rest)
    | [] => some (if neg then -(n : Int) else (n : Int), [])

/-- The three productions of the recursive-descent JSON grammar: a value, the
member list of an object (returned wrapped in `Json.obj`), or the element list
of an array (returned wrapped in `Json.arr`). -/
inductive PMode where
  | value : PMode
  | members : PMode
  | elems : PMode

/-- Recursive-descent JSON parsing, structurally recursive on fuel so that it
reduces definitionally.  In `value` mode a JSON value must start at the head
of the input (no leading whitespace, as with `json.JSONDecoder.raw_decode`);
`members` parses one or more `"key": value` pairs followed by `\x7d` and
`elems` one or more elements followed by `]`. -/
def parseCore : Nat → PMode → List Char → Option (Json × List Char)
  | 0, _, _ => none
  | _ + 1, .value, [] => none
  | f + 1, .value, c :: rest =>
    if c = '{' then
      match skipJWs rest with
      | '}' :: rest2 => some (Json.obj [], rest2)
      | cs2 => parseCore f .members cs2
    else if c = '[' then
      match skipJWs rest with
      | ']' :: rest2 => some (Json.arr [], rest2)
      | cs2 => parseCore f .elems cs2
    else if c = '"' then
      (parseStrBody (rest.length + 1) rest).map fun p => (Json.str p.1, p.2)
    else if c = 't' then
      if ['r', 'u', 'e'].isPrefixOf rest then some (Json.bool true, rest.drop 3) else none
    else if c = 'f' then
      if ['a', 'l', 's', 'e'].isPrefixOf rest then some (Json.bool false, rest.drop 4) else none
    else if c = 'n' then
      if ['u', 'l', 'l'].isPrefixOf rest then some (Json.null, rest.drop 3) else none
    else
      (parseIntLit (c :: rest)).map fun p => (Json.num p.1, p.2)
  | f + 1, .members, cs =>
    match cs with
    | '"' :: rest =>
      match parseStrBody (rest.length + 1) rest with
      | none => none
      | some (key, rest2) =>
        match skipJWs rest2 with
        | ':' :: rest3 =>
          match parseCore f .value (skipJWs rest3) with
          | none => none
          | some (v, rest4) =>
            match skipJWs rest4 with
            | ',' :: rest5 =>
              match parseCore f .members (skipJWs rest5) with
              | some (Json.obj kvs, rest6) => some (Json.obj ((key, v) :: kvs), rest6)
              | _ => none
            | '}' :: rest5 => some (Json.obj [(key, v)], rest5)
            | _ => none
        | _ => none
    | _ => none
  | f + 1, .elems, cs =>
    match parseCore f .value cs with
    | none => none
    | some (v, rest) =>
      match skipJWs rest with
      | ',' :: rest2 =>
        match parseCore f .elems (skipJWs rest2) with
        | some (Json.arr xs, rest3) => some (Json.arr (v :: xs), rest3)
        | _ => none
      | ']' :: rest2 => some (Json.arr [v], rest2)
      | _ => none

/-- A JSON value at the head of the input. -/
def parseVal (fuel : Nat) (cs : List Char) : Option (Json × List Char) :=
  parseCore fuel .value cs


/-- `json.JSONDecoder().raw_decode`: a JSON value must start at index 0;
trailing text is permitted and returned unconsumed. -/
def rawDecodeL (cs : List Char) : Option (Json × List Char) :=
  parseVal (cs.length + 1) cs

/-- `json.loads`: leading/trailing whitespace allowed, whole input consumed. -/
def loadsL (cs : List Char) : Option Json :=
  match parseVal (cs.length + 1) (skipJWs cs) with
  | some (v, rest) => if skipJWs rest = [] then some v else none
  | none => none

/-- `GeminiEngine._clean_json_text`'s substitution
`re.sub(",(\s*[}\]])", group 1)`: each comma that is followed by optional
whitespace and a closing brace/bracket is dropped; scanning resumes after the
match, like `re.sub`'s non-overlapping leftmost scan. -/
def cleanSub (fuel : Nat) (cs : List Char) : List Char :=
  match fuel, cs with
  | 0, _ => cs
  | _, [] => []
  | f + 1, c :: rest =>
    if c = ',' then
      let ws := rest.takeWhile pySpace
      let rest2 := rest.dropWhile pySpace
      match rest2 with
      | b :: tail =>
        if b = '}' || b = ']' then ws ++ b :: cleanSub f tail
        else ',' :: cleanSub f rest
      | [] => ',' :: rest
    else c :: cleanSub f rest

/-- `GeminiEngine._clean_json_text`: trailing-comma removal, then `strip`. -/
def cleanJsonText (cs : List Char) : List Char :=
  stripL (cleanSub (cs.length + 1) cs)

/-- The markdown-fence stripping at the head of
`GeminiEngine._extract_json_from_response`: if a ```json fence opens and a
closing ``` follows, the stripped fence body replaces the text; otherwise if a
plain ``` pair exists its body is taken; otherwise the text is unchanged.
(The lazy regex  ```json\s*(.*?)\s*```  takes exactly the span between the
first  ```json  and the first subsequent  ``` .) -/
def stripFences (cs : List Char) : List Char :=
  match findSubL "```json".data cs with
  | some i =>
    let after := cs.drop (i + 7)
    match findSubL "```".data after with
    | some j => stripL (after.take j)
    | none => cs
  | none =>
    match findSubL "```".data cs with
    | some i =>
      let after := cs.drop (i + 3)
      match findSubL "```".data after with
      | some j => stripL (after.take j)
      | none => cs
    | none => cs

/-- The string-aware brace scan of `_extract_json_from_response` (used both by
the first extraction pass and by the final "aggressive" pass, which differ only
in dead code around the quote toggle): returns the final `brace_count` and the
`json_end_idx` set by the `break` (0 when the scan never balanced). -/
def braceWalkGo : List Char → Int → Bool → Bool → Nat → Int × Nat
  | [], bc, _, _, _ => (bc, 0)
  | c :: rest, bc, inStr, esc, i =>
    if esc then braceWalkGo rest bc inStr false (i + 1)
    else if c = '\\' then braceWalkGo rest bc inStr true (i + 1)
    else if c = '"' then braceWalkGo rest bc (!inStr) false (i + 1)
    else if !inStr && c = '{' then braceWalkGo rest (bc + 1) inStr false (i + 1)
    else if !inStr && c = '}' then
      if bc - 1 = 0 then (0, i + 1)
      else braceWalkGo rest (bc - 1) inStr false (i + 1)
    else braceWalkGo rest bc inStr false (i + 1)

/-- Entry point of the brace scan with `brace_count = 0`, `json_end_idx = 0`. -/
def braceWalk (cs : List Char) : Int × Nat :=
  braceWalkGo cs 0 false false 0

/-- The line-based lenient scan of `_extract_json_from_response`: split on
newlines, skip leading `//` comment lines, start collecting at the first line
containing `\x7b`, track the running brace balance, stop once it returns to zero
on a brace-bearing line; yields the joined collected lines, if any. -/
def lineScanGo (finish : List (List Char) → Option (List Char)) :
    List (List Char) → List (List Char) → Int → Bool → Option (List Char)
  | [], acc, _, _ => finish acc
  | line :: rest, acc, bc, started =>
    let stripped := stripL line
    if "//".data.isPrefixOf stripped && !started then
      lineScanGo finish rest acc bc started
    else
      let started2 := started || line.contains '{'
      if started2 then
        let acc2 := acc ++ [line]
        let bc2 := bc + (countCharL '{' line : Int) - (countCharL '}' line : Int)
        if bc2 = 0 && line.contains '{' then finish acc2
        else lineScanGo finish rest acc2 bc2 started2
      else lineScanGo finish rest acc bc started2

/-- The line-based scan applied to the whole text. -/
def lineScan (cs : List Char) : Option (List Char) :=
  let finish : List (List Char) → Option (List Char) := fun acc =>
    match acc with
    | [] => none
    | _ => some (List.intercalate ['\n'] acc)
  lineScanGo finish (splitNl cs) [] 0 false

/-- Failure of `_extract_json_from_response` (`InvalidJSONError`). -/
inductive ExtractErr where
  | invalidJSON : ExtractErr
  deriving Repr, DecidableEq

/-- `GeminiEngine._extract_json_from_response`, translated branch by branch:
fence stripping; locating the first `\x7b`; the string-aware brace scan with its
`rfind` fallback; `_clean_json_text`; `json.loads`; then the chain of
progressively more lenient fallbacks (`raw_decode` of the cleaned object text,
of the cleaned tail, of the greedy `\x7b.*\x7d` regex capture, of the line-based
scan, and finally of the second brace scan), raising `InvalidJSONError` when
all fail. -/
def extractJsonL (responseText : List Char) : Except ExtractErr Json :=
  let text := stripFences responseText
  match findCharL '{' text with
  | none => .error .invalidJSON
  | some jsonStart =>
    let jsonText := text.drop jsonStart
    let walked := braceWalk jsonText
    let jsonObjectText :=
      if walked.1 = 0 && walked.2 > 0 then stripL (jsonText.take walked.2)
      else
        match rfindCharL '}' jsonText with
        | some lastBrace =>
          if lastBrace > 0 then stripL (jsonText.take (lastBrace + 1))
          else stripL jsonText
        | none => stripL jsonText
    let cleanedObject := cleanJsonText jsonObjectText
    match loadsL cleanedObject with
    | some v => .ok v
    | none =>
      match rawDecodeL cleanedObject with
      | some p => .ok p.1
      | none =>
        match rawDecodeL (cleanJsonText jsonText) with
        | some p => .ok p.1
        | none =>
          let cleanedText := stripL jsonText
          let greedy : Option (List Char) :=
            match findCharL '{' cleanedText, rfindCharL '}' cleanedText with
            | some p, some q =>
              if p < q then some ((cleanedText.drop p).take (q - p + 1)) else none
            | _, _ => none
          let tryGreedy : Option Json :=
            match greedy with
            | some g =>
              match rawDecodeL (cleanJsonText g) with
              | some p => some p.1
              | none => none
            | none => none
          match tryGreedy with
          | some v => .ok v
          | none =>
            let tryLines : Option Json :=
              match lineScan cleanedText with
              | some joined =>
                match rawDecodeL (cleanJsonText joined) with
                | some p => some p.1
                | none => none
              | none => none
            match tryLines with
            | some v => .ok v
            | none =>
              match findCharL '{' jsonText with
              | some fb =>
                let walked2 := braceWalk (jsonText.drop fb)
                if walked2.1 = 0 && walked2.2 > 0 then
                  match rawDecodeL ((jsonText.drop fb).take walked2.2) with
                  | some p => .ok p.1
                  | none => .error .invalidJSON
                else .error .invalidJSON
              | none => .error .invalidJSON

/-- String-level entry point of the extractor. -/
def extractJson (s : String) : Except ExtractErr Json :=
  extractJsonL s.data

/-- Python dict key test `key in stage` for the pipeline stages of
`MongoDBAdapter.execute`; a string stage uses substring containment.  Every
stage reaching this code in the repository is a JSON object (the plan model
types MongoDB queries as `List[Dict]`). -/
def stageHasKey (key : String) (j : Json) : Bool :=
  match j with
  | .obj kvs => kvs.any fun kv => kv.1 == key
  | .str s => isSubL key.data s.data
  | _ => false

/-- Dict lookup `stage.get(key)` on an object stage. -/
def Json.getKey (j : Json) (key : String) : Option Json :=
  match j with
  | .obj kvs => (kvs.find? fun kv => kv.1 == key).map (·.2)
  | _ => none

/-- Dict assignment `d[key] = v` to an existing key: the entry keeps its
position, as CPython dicts do. -/
def Json.setKey (j : Json) (key : String) (v : Json) : Json :=
  match j with
  | .obj kvs => .obj (kvs.map fun kv => if kv.1 == key then (kv.1, v) else kv)
  | other => other

/-- The Python value passed as the `collection` argument of
`MongoDBAdapter.execute` (the service passes a one-element list there, the
adapter's signature expects a string, so the model keeps the dynamic type). -/
inductive CollArg where
  | pyStr (s : String) : CollArg
  | pyList (xs : List String) : CollArg
  | pyNone : CollArg
  deriving Repr, DecidableEq

/-- Python truthiness of the `collection` argument. -/
def CollArg.truthy : CollArg → Bool
  | .pyStr s => !s.isEmpty
  | .pyList xs => !xs.isEmpty
  | .pyNone => false

/-- Character class `[a-zA-Z_]`. -/
def collCharHead (c : Char) : Bool :=
  ('a' ≤ c && c ≤ 'z') || ('A' ≤ c && c ≤ 'Z') || c == '_'

/-- Character class `[a-zA-Z0-9_]`. -/
def collCharTail (c : Char) : Bool :=
  collCharHead c || ('0' ≤ c && c ≤ '9')

/-- Full-string membership in the language of `^[a-zA-Z_][a-zA-Z0-9_]*$`. -/
def collPatternFull (cs : List Char) : Bool :=
  match cs with
  | [] => false
  | c :: rest => collCharHead c && rest.all collCharTail

/-- Python `re.match` against `^[a-zA-Z_][a-zA-Z0-9_]*$`: without `re.M`, `$`
matches at the end of the string or just before one trailing newline, so the
accepted set is the pattern's language plus those words with `"\n"` appended. -/
def collPatternPyMatch (cs : List Char) : Bool :=
  collPatternFull cs ||
    (match cs.getLast? with
     | some '\n' => collPatternFull cs.dropLast
     | _ => false)

/-- `MongoDBAdapter._validate_collection_name` on a string argument: reject
empty, `system.`-namespaced, NUL- or `$`-bearing names, then the allow-list
regex via `re.match`. -/
def validateCollectionNameStr (s : String) : Bool :=
  if s.isEmpty then false
  else if "system.".data.isPrefixOf s.data then false
  else if s.data.contains '\x00' || s.data.contains '$' then false
  else collPatternPyMatch s.data

/-- `MongoDBAdapter._validate_collection_name` on the dynamic argument: the
`isinstance(collection_name, str)` guard rejects every non-string. -/
def validateCollectionName : CollArg → Bool
  | .pyStr s => validateCollectionNameStr s
  | _ => false

/-- Errors raised inside `MongoDBAdapter.execute` (all `ValueError`s in the
source, distinguished by message) plus the runtime errors Python itself would
raise on the off-model shapes noted at their uses. -/
inductive MongoErr where
  | invalidCollectionName : MongoErr
  | missingCollection : MongoErr
  | pyRuntime : MongoErr
  deriving Repr, DecidableEq

/-- `any("$limit" in stage for stage in pipeline)`. -/
def mongoHasLimit (pipeline : List Json) : Bool :=
  pipeline.any (stageHasKey "$limit")

/-- The stage `\x7b"$limit": max_docs\x7d` the adapter appends. -/
def limitStage (maxDocs : Nat) : Json :=
  .obj [("$limit", .num maxDocs)]

/-- Python `str()` of the scalar `_id` values stringified in result rows. -/
def pyStrOfJson : Json → String
  | .str s => s
  | .num n => toString n
  | .bool b => if b then "True" else "False"
  | .null => "None"
  | .arr _ => "list"
  | .obj _ => "dict"

/-- One result document/row: the ordered fields of a Python dict. -/
abbrev Row : Type := List (String × Json)

/-- `field in doc`. -/
def rowHasField (row : Row) (f : String) : Bool :=
  row.any fun kv => kv.1 == f

/-- `doc[field] = v`: in-place update of an existing key. -/
def rowSet (row : Row) (f : String) (v : Json) : Row :=
  row.map fun kv => if kv.1 == f then (kv.1, v) else kv

/-- `doc.get(field)`: lookup used to state the masking properties. -/
def rowGet (row : Row) (f : String) : Option Json :=
  (row.find? fun kv => kv.1 == f).map (·.2)

/-- `doc["_id"] = str(doc["_id"])` when the key is present. -/
def stringifyId (doc : Row) : Row :=
  if rowHasField doc "_id" then
    match rowGet doc "_id" with
    | some v => rowSet doc "_id" (.str (pyStrOfJson v))
    | none => doc
  else doc

/-- Outcome of `MongoDBAdapter.execute`: the returned documents, the state of
the caller's pipeline list object after the call (the adapter appends to it in
place), and the collection/pipeline handed to `aggregate`. -/
structure MongoExecOut where
  results : List Row
  callerPipeline : List Json
  usedCollection : String
  usedPipeline : List Json

/-- `MongoDBAdapter.execute`, with the database modelled as a function from
collection name and pipeline to the documents `aggregate` yields.
`cursor.to_list(length=max_docs)` takes at most `max_docs` documents; `_id`
fields are stringified.  The branch structure follows the source: a truthy
`collection` argument is validated (lists and other non-strings fail the
`isinstance` check); a falsy one makes the adapter read `collection`/`stages`
out of `pipeline[0]`, in which case the local `pipeline` variable is rebound to
the inner `stages` list and the `$limit` append lands there, not on the
caller's list.  A non-list `stages` value would make Python's
`pipeline.append` fail (`pyRuntime`). -/
def MongoDBAdapter.execute (db : String → List Json → List Row)
    (pipeline : List Json) (collection : CollArg) (maxDocs : Nat) :
    Except MongoErr MongoExecOut :=
  if collection.truthy then
    match collection with
    | .pyStr s =>
      if !validateCollectionNameStr s then .error .invalidCollectionName
      else
        let used := if mongoHasLimit pipeline then pipeline
                    else pipeline ++ [limitStage maxDocs]
        .ok ⟨((db s used).take maxDocs).map stringifyId, used, s, used⟩
    | _ => .error .invalidCollectionName
  else
    match pipeline with
    | [] => .error .missingCollection
    | first :: rest =>
      match first.getKey "collection" with
      | none => .error .missingCollection
      | some cval =>
        match cval with
        | .str s =>
          if !validateCollectionNameStr s then .error .invalidCollectionName
          else
            match first.getKey "stages" with
            | some (.arr stages) =>
              let used := if mongoHasLimit stages then stages
                          else stages ++ [limitStage maxDocs]
              .ok ⟨((db s used).take maxDocs).map stringifyId,
                   first.setKey "stages" (.arr used) :: rest, s, used⟩
            | some _ => .error .pyRuntime
            | none =>
              let used := if mongoHasLimit (first :: rest) then first :: rest
                          else (first :: rest) ++ [limitStage maxDocs]
              .ok ⟨((db s used).take maxDocs).map stringifyId, used, s, used⟩
        | _ => .error .invalidCollectionName

/-- Outcome of `PostgresAdapter.execute`: the rows handed back (built from
whatever `conn.fetch` returned, untruncated) and the SQL text actually sent. -/
structure PgExecOut where
  rows : List Row
  sentQuery : String

/-- `PostgresAdapter.execute`, with `conn.fetch` modelled as a function of the
query text and parameters.  A `LIMIT` clause is appended exactly when the
uppercased query does not contain the substring `"LIMIT"`; the fetched rows
pass through without truncation (the warning at `len(rows) >= max_rows` only
logs). -/
def PostgresAdapter.execute (fetch : String → List Json → List Row)
    (query : String) (params : List Json) (maxRows : Nat) : PgExecOut :=
  let q : List Char :=
    if isSubL "LIMIT".data (upperL query.data) then query.data
    else rstripSemi query.data ++ (" LIMIT " ++ toString maxRows).data
  ⟨fetch (String.mk q) params, String.mk q⟩

/-- The literal the masker writes. -/
def maskedValue : Json := .str "***MASKED***"

/-- `SecurityContext` (the masker only reads `field_masks`; the remaining
fields are carried for shape fidelity). -/
structure SecurityContext where
  user_id : String
  role : String
  account_id : Option String
  permissions : List String
  row_filters : List (String × List (String × Json))
  field_masks : List (String × List String)

/-- The inner loop of `QueryService._apply_field_masking`: `for field in
fields: if field in masked_row: masked_row[field] = "***MASKED***"`. -/
def maskFields (fields : List String) (row : Row) : Row :=
  fields.foldl (fun r2 f => if rowHasField r2 f then rowSet r2 f maskedValue else r2) row

/-- The outer loop of `QueryService._apply_field_masking` applied to one copied
row: for each `(table, fields)` entry run the field loop. -/
def maskRow (fieldMasks : List (String × List String)) (row : Row) : Row :=
  fieldMasks.foldl (fun r tf => maskFields tf.2 r) row

/-- `QueryService._apply_field_masking`: empty masks return the result list
unchanged; otherwise each row is copied and masked. -/
def applyFieldMasking (results : List Row) (securityCtx : SecurityContext) : List Row :=
  if securityCtx.field_masks.isEmpty then results
  else results.map (maskRow securityCtx.field_masks)

/-- `str.lower()` (ASCII), written over the character list so that it reduces
definitionally. -/
def pyLower (s : String) : String :=
  String.mk (s.data.map Char.toLower)

/-- Python truthiness of a JSON value (used by `query.get("query_type")`). -/
def Json.truthy : Json → Bool
  | .null => false
  | .bool b => b
  | .num n => n != 0
  | .str s => !s.isEmpty
  | .arr xs => !xs.isEmpty
  | .obj kvs => !kvs.isEmpty

/-- Dict assignment `d[key] = v` that may add a new key (appended last, as
CPython does) — used by the `query["query_type"] = ...` normalization. -/
def Json.setKeyOrAdd (j : Json) (key : String) (v : Json) : Json :=
  match j with
  | .obj kvs =>
    if kvs.any (fun kv => kv.1 == key) then
      .obj (kvs.map fun kv => if kv.1 == key then (kv.1, v) else kv)
    else .obj (kvs ++ [(key, v)])
  | other => other

/-- Error classes raised inside `GeminiEngine._process_response` and its
callees (`GeminiResponseError`, `InvalidJSONError`, `InvalidQueryPlanError`,
and Python runtime errors such as `AttributeError` on off-model shapes).
Modelled from the spec: the class definitions live in `app.core.exceptions`,
which is absent from the sources; §7's taxonomy lists `InvalidJSON` and
`InvalidPlan` as distinct sibling error kinds, so no constructor here is a
subclass of another. -/
inductive EngineErr where
  | responseErr : EngineErr
  | invalidJSON : EngineErr
  | invalidPlan : EngineErr
  | pyRuntime : EngineErr
  deriving Repr, DecidableEq

/-- The MongoDB operator substrings `_process_response` sniffs in string
queries. -/
def mongoOps : List String :=
  ["$match", "$group", "$project", "$limit", "$sort", "$lookup"]

/-- The `query_type` normalization cascade of `_process_response`, one entry of
`queries`.  `query.get("database", "").lower()` raises on a non-string value
(`pyRuntime`); `query.get("query_type", "").lower() if query.get("query_type")
else ""` lowers only a truthy value; then the cascade assigns one of `"sql"`,
`"mongodb"`, `"cross-db"` back into the dict. -/
def normalizeQuery (q : Json) : Except EngineErr Json :=
  match q with
  | .obj _ =>
    let dbRes : Except EngineErr String :=
      match q.getKey "database" with
      | none => .ok ""
      | some (.str s) => .ok (pyLower s)
      | some _ => .error .pyRuntime
    match dbRes with
    | .error e => .error e
    | .ok database =>
      let queryValue := q.getKey "query"
      let qtRes : Except EngineErr String :=
        match q.getKey "query_type" with
        | none => .ok ""
        | some (.str s) => .ok (if s.isEmpty then "" else pyLower s)
        | some v => if v.truthy then .error .pyRuntime else .ok ""
      match qtRes with
      | .error e => .error e
      | .ok queryType =>
        let isList : Bool := match queryValue with
          | some (.arr _) => true
          | _ => false
        let hasOps : Bool := match queryValue with
          | some (.str s) => mongoOps.any fun op => isSubL op.data s.data
          | _ => false
        let newType : String :=
          if queryType == "mongodb" then "mongodb"
          else if queryType == "cross-db" || queryType == "cross_db" then "cross-db"
          else if queryType == "sql" then "sql"
          else if queryType == "aggregation" || queryType == "mongo" || queryType == "nosql" then
            "mongodb"
          else if isList then "mongodb"
          else if hasOps then "mongodb"
          else if database == "mongodb" then "mongodb"
          else if database == "postgres" || "postgres".data.isPrefixOf database.data then "sql"
          else if isList then "mongodb"
          else "sql"
        .ok (q.setKeyOrAdd "query_type" (.str newType))
  | _ => .error .pyRuntime

/-- One generated sub-query, as the pydantic model `DatabaseQuery`. -/
structure DatabaseQuery where
  database : String
  query_type : String
  query : Json
  parameters : Option (List Json)
  estimated_rows : Option Int
  collection : Option String

/-- The pydantic model `QueryPlan`. -/
structure QueryPlan where
  databases : List String
  queries : List DatabaseQuery

/-- Pydantic validation of one `DatabaseQuery` entry: required string
`database`, `query_type` drawn from the three literals, `query` a string or a
list of objects, and the three optional fields of the annotated types. -/
def parseDatabaseQuery (j : Json) : Option DatabaseQuery :=
  match j with
  | .obj _ =>
    match j.getKey "database", j.getKey "query_type", j.getKey "query" with
    | some (.str db), some (.str qt), some qv =>
      if !(qt == "sql" || qt == "mongodb" || qt == "cross-db") then none
      else
        let okQ : Bool := match qv with
          | .str _ => true
          | .arr xs => xs.all fun x => match x with
            | .obj _ => true
            | _ => false
          | _ => false
        if !okQ then none
        else
          let pOk : Option (Option (List Json)) := match j.getKey "parameters" with
            | none => some none
            | some .null => some none
            | some (.arr xs) => some (some xs)
            | some _ => none
          let eOk : Option (Option Int) := match j.getKey "estimated_rows" with
            | none => some none
            | some .null => some none
            | some (.num n) => some (some n)
            | some _ => none
          let cOk : Option (Option String) := match j.getKey "collection" with
            | none => some none
            | some .null => some none
            | some (.str s) => some (some s)
            | some _ => none
          match pOk, eOk, cOk with
          | some p, some e, some c => some ⟨db, qt, qv, p, e, c⟩
          | _, _, _ => none
    | _, _, _ => none
  | _ => none

/-- `QueryPlan(**plan_data)`: pydantic parse of the whole plan object (extra
top-level keys are ignored per its `model_config`). -/
def parseQueryPlan (j : Json) : Option QueryPlan :=
  match j.getKey "databases", j.getKey "queries" with
  | some (.arr ds), some (.arr qs) =>
    let dsOk : Option (List String) := ds.mapM fun d => match d with
      | .str s => some s
      | _ => none
    match dsOk, qs.mapM parseDatabaseQuery with
    | some a, some b => some ⟨a, b⟩
    | _, _ => none
  | _, _ => none

/-- A Gemini response, reduced to what `_process_response` reads: the list of
candidates, each carrying the `text` of its content parts (absent content or
part text appears as an empty list / empty string, which is what the code's
truthiness checks test). -/
abbrev Response : Type := List (List String)

/-- `re.sub("<thought>.*?</thought>", "", text)`: each lazily-matched block is
removed; scanning resumes after the removed block. -/
def removeThoughts (fuel : Nat) (cs : List Char) : List Char :=
  match fuel with
  | 0 => cs
  | f + 1 =>
    match findSubL "<thought>".data cs with
    | none => cs
    | some i =>
      let after := cs.drop (i + 9)
      match findSubL "</thought>".data after with
      | none => cs
      | some j => cs.take i ++ removeThoughts f (after.drop (j + 10))

/-- Whether `re.search("<thought>(.*?)</thought>", text)` finds a match. -/
def hasThought (cs : List Char) : Bool :=
  match findSubL "<thought>".data cs with
  | some i => (findSubL "</thought>".data (cs.drop (i + 9))).isSome
  | none => false

/-- The tail of `GeminiEngine._process_response` after JSON extraction: the
structural validation that the payload is an object whose `databases` and
`queries` are both lists, the in-place `query_type` normalization of each
query entry, and the final pydantic construction (whose failure is wrapped
into `InvalidQueryPlanError`). -/
def processPlanData (planData : Json) : Except EngineErr QueryPlan :=
  match planData with
  | .obj _ =>
    match planData.getKey "databases", planData.getKey "queries" with
    | some (.arr _), some (.arr qs) =>
      match qs.mapM normalizeQuery with
      | .error e => .error e
      | .ok qs2 =>
        match parseQueryPlan (planData.setKey "queries" (.arr qs2)) with
        | some plan => .ok plan
        | none => .error .invalidPlan
    | _, _ => .error .invalidPlan
  | _ => .error .invalidPlan

/-- `GeminiEngine._process_response`: candidate/part checks, text join and
strip, thought-block removal, JSON extraction, then `processPlanData`. -/
def processResponse (r : Response) : Except EngineErr QueryPlan :=
  match r with
  | [] => .error .responseErr
  | parts :: _ =>
    match parts with
    | [] => .error .responseErr
    | _ :: _ =>
      let texts := parts.filter fun t => !t.isEmpty
      if texts.isEmpty then .error .responseErr
      else
        let rt0 := stripL (List.intercalate ['\n'] (texts.map String.data))
        let rt := if hasThought rt0 then stripL (removeThoughts (rt0.length + 1) rt0) else rt0
        match extractJsonL rt with
        | .error _ => .error .invalidJSON
        | .ok planData => processPlanData planData

/-- Specification-side predicate naming C4's guard: the extracted payload is
an object carrying both `databases` and `queries` as lists. -/
def structuralPlanShape (j : Json) : Bool :=
  match j with
  | .obj _ =>
    match j.getKey "databases", j.getKey "queries" with
    | some (.arr _), some (.arr _) => true
    | _, _ => false
  | _ => false

/-- The exception kinds a `generate_content` call can raise.  The retry
wrapper's allow-list is `(ConnectionError, TimeoutError, OSError,
ServerError)`; anything else propagates through it. -/
inductive ApiErr where
  | connection : ApiErr
  | timeout : ApiErr
  | osErr : ApiErr
  | serverOverload : ApiErr
  | other : ApiErr
  deriving Repr, DecidableEq

/-- Membership in the retry allow-list. -/
def apiRetryable : ApiErr → Bool
  | .other => false
  | _ => true

/-- Outcome of one `generate_content` invocation, supplied by the transport
oracle. -/
inductive GemCall where
  | respond (r : Response) : GemCall
  | raise (e : ApiErr) : GemCall

/-- `retry_with_exponential_backoff` around the Gemini call, tracking only the
invocation count (its sleeps are analysed separately by `retryWithBackoff`).
`attempt` is the current index and the second argument the retries left. -/
def geminiRetryGo (call : Nat → GemCall) (attempt : Nat) :
    Nat → (Except ApiErr Response) × Nat
  | 0 =>
    match call attempt with
    | .respond r => (.ok r, attempt + 1)
    | .raise e => (.error e, attempt + 1)
  | f + 1 =>
    match call attempt with
    | .respond r => (.ok r, attempt + 1)
    | .raise e =>
      if apiRetryable e then geminiRetryGo call (attempt + 1) f
      else (.error e, attempt + 1)

/-- The retry wrapper with `max_retries` retries, from attempt 0. -/
def geminiRetry (call : Nat → GemCall) (maxRetries : Nat) :
    (Except ApiErr Response) × Nat :=
  geminiRetryGo call 0 maxRetries

/-- The exception recorded in `last_exception` by the model-fallback loop. -/
inductive LastErr where
  | api (e : ApiErr) : LastErr
  | engine (e : EngineErr) : LastErr
  deriving Repr, DecidableEq

/-- Result of `generate_query_plan`: a plan, an `InvalidQueryPlanError`
surfaced without fallback, or the final `GeminiAPIError` wrapping the last
exception once every model failed. -/
inductive GenErr where
  | invalidPlan : GenErr
  | geminiAPI (last : Option LastErr) : GenErr
  deriving Repr, DecidableEq

/-- The hard-coded fallback model of `generate_query_plan`. -/
def fallbackModel : String := "gemini-3-flash-preview"

/-- The deduplicated `[configured, fallback]` priority list. -/
def modelsToTry (modelName : String) : List String :=
  if modelName == fallbackModel then [modelName] else [modelName, fallbackModel]

/-- Output of `generate_query_plan`: the result plus, per tried model, the
number of `generate_content` invocations made on it. -/
structure GenOut where
  result : Except GenErr QueryPlan
  calls : List (String × Nat)

/-- The model-fallback loop of `generate_query_plan`: each model is called
under the retry wrapper; a successful transport result is processed, and
`InvalidQueryPlanError` is re-raised without trying further models, while any
other processing or transport error is remembered and the next model tried. -/
def genLoop (gem : String → Nat → GemCall) :
    List String → Option LastErr → List (String × Nat) → GenOut
  | [], last, acc => ⟨.error (.geminiAPI last), acc⟩
  | m :: rest, last, acc =>
    let r := geminiRetry (gem m) 3
    match r.1 with
    | .ok resp =>
      match processResponse resp with
      | .ok plan => ⟨.ok plan, acc ++ [(m, r.2)]⟩
      | .error .invalidPlan => ⟨.error .invalidPlan, acc ++ [(m, r.2)]⟩
      | .error e => genLoop gem rest (some (.engine e)) (acc ++ [(m, r.2)])
    | .error e => genLoop gem rest (some (.api e)) (acc ++ [(m, r.2)])

/-- `GeminiEngine.generate_query_plan`, with the transport modelled as an
oracle mapping model name and per-model invocation index to an outcome. -/
def generateQueryPlan (modelName : String) (gem : String → Nat → GemCall) : GenOut :=
  genLoop gem (modelsToTry modelName) none []

/-- Errors surfacing from `QueryService` execution: the service's own raises,
the generation errors, and the adapter `ValueError`s it lets propagate. -/
inductive QueryErr where
  | gen (e : GenErr) : QueryErr
  | queryValidation : QueryErr
  | invalidQuery : QueryErr
  | missingCollection : QueryErr
  | unsupportedQuery : QueryErr
  | mongoValueError (e : MongoErr) : QueryErr
  | pyRuntime : QueryErr
  deriving Repr, DecidableEq

/-- Result of an execution path together with the number of adapter `execute`
coroutines actually awaited (an adapter call that raises still counts as a
call; a dispatch error before the call counts zero). -/
structure ExecOut where
  result : Except QueryErr (List Row)
  adapterCalls : Nat

/-- `QueryService._execute_single_db`: dispatch on `queries[0].query_type`;
the `sql` branch forwards body and parameters to the relational adapter; the
`mongodb` branch checks the body is a list and the collection truthy and then
calls the document adapter with `[collection]` — the singleton list, exactly
as the source writes it — as the `collection` argument. -/
def executeSingleDb (pgFetch : String → List Json → List Row)
    (mongoDb : String → List Json → List Row) (plan : QueryPlan) : ExecOut :=
  match plan.queries with
  | [] => ⟨.error .pyRuntime, 0⟩
  | q :: _ =>
    if q.query_type == "sql" then
      match q.query with
      | .str sql => ⟨.ok (PostgresAdapter.execute pgFetch sql (q.parameters.getD []) 10000).rows, 1⟩
      | _ => ⟨.error .pyRuntime, 0⟩
    else if q.query_type == "mongodb" then
      match q.query with
      | .arr pipeline =>
        match q.collection with
        | none => ⟨.error .missingCollection, 0⟩
        | some c =>
          if c.isEmpty then ⟨.error .missingCollection, 0⟩
          else
            match MongoDBAdapter.execute mongoDb pipeline (.pyList [c]) 10000 with
            | .ok out => ⟨.ok out.results, 1⟩
            | .error e => ⟨.error (.mongoValueError e), 1⟩
      | _ => ⟨.error .invalidQuery, 0⟩
    else ⟨.error .unsupportedQuery, 0⟩

/-- A coroutine prepared by the `_execute_cross_db` task-creation loop. -/
inductive CrossTask where
  | sqlTask (sql : String) (params : List Json) : CrossTask
  | mongoTask (pipeline : List Json) (coll : String) : CrossTask
  | mongoOffList (coll : String) : CrossTask
  deriving Repr

/-- Task creation for one sub-query of `_execute_cross_db` (runs before any
await: `MissingCollectionError`/`UnsupportedQueryError` are raised here, and a
non-list `mongodb` body still becomes a task since this path has no list
check). -/
def crossCreate (q : DatabaseQuery) : Except QueryErr CrossTask :=
  if q.query_type == "sql" then
    match q.query with
    | .str sql => .ok (.sqlTask sql (q.parameters.getD []))
    | _ => .error .pyRuntime
  else if q.query_type == "mongodb" then
    match q.collection with
    | none => .error .missingCollection
    | some c =>
      if c.isEmpty then .error .missingCollection
      else
        match q.query with
        | .arr pipeline => .ok (.mongoTask pipeline c)
        | _ => .ok (.mongoOffList c)
  else .error .unsupportedQuery

/-- Awaiting one created task.  A mongo task again receives `[coll]` as the
`collection` argument; with a non-list body the same list-typed argument fails
`_validate_collection_name` before the body is ever touched. -/
def crossRun (pgFetch : String → List Json → List Row)
    (mongoDb : String → List Json → List Row) : CrossTask → Except QueryErr (List Row)
  | .sqlTask sql params => .ok (PostgresAdapter.execute pgFetch sql params 10000).rows
  | .mongoTask pipeline c =>
    match MongoDBAdapter.execute mongoDb pipeline (.pyList [c]) 10000 with
    | .ok out => .ok out.results
    | .error e => .error (.mongoValueError e)
  | .mongoOffList _ => .error (.mongoValueError .invalidCollectionName)

/-- `QueryService._execute_cross_db`: create every task (an error here means
no coroutine is ever awaited), await them all, surface the first error, and
merge by ordered concatenation. -/
def executeCrossDb (pgFetch : String → List Json → List Row)
    (mongoDb : String → List Json → List Row) (plan : QueryPlan) : ExecOut :=
  match plan.queries.mapM crossCreate with
  | .error e => ⟨.error e, 0⟩
  | .ok tasks =>
    match tasks.mapM (crossRun pgFetch mongoDb) with
    | .error e => ⟨.error e, tasks.length⟩
    | .ok resultsList => ⟨.ok resultsList.flatten, tasks.length⟩

/-- `QueryService.execute_query` condensed to the order of effects the claims
concern: plan generation (step 2), the dry-run return (step 3), the optional
per-query validator (step 4, its verdicts supplied by an oracle), execution
(step 5) and field masking (step 6).  Schema introspection (step 1) issues no
adapter `execute` call and is elided. -/
def executeQueryModel (modelName : String) (gem : String → Nat → GemCall)
    (validatorSafe : Nat → Bool) (pgFetch : String → List Json → List Row)
    (mongoDb : String → List Json → List Row) (dryRun skipValidation : Bool)
    (securityCtx : SecurityContext) : ExecOut :=
  let gen := generateQueryPlan modelName gem
  match gen.result with
  | .error e => ⟨.error (.gen e), 0⟩
  | .ok plan =>
    if dryRun then ⟨.ok [], 0⟩
    else
      let unsafeHit := (List.range plan.queries.length).find? fun i => !validatorSafe i
      if !skipValidation && unsafeHit.isSome then ⟨.error .queryValidation, 0⟩
      else
        let ex :=
          if plan.queries.length == 1 then executeSingleDb pgFetch mongoDb plan
          else executeCrossDb pgFetch mongoDb plan
        match ex.result with
        | .error e => ⟨.error e, ex.adapterCalls⟩
        | .ok results => ⟨.ok (applyFieldMasking results securityCtx), ex.adapterCalls⟩

/-- Outcome of one invocation of the operation passed to
`retry_with_exponential_backoff`. -/
inductive OpOutcome (α ε : Type) where
  | ok (a : α) : OpOutcome α ε
  | raise (e : ε) : OpOutcome α ε

/-- The whole run of the retry engine: final result, number of invocations of
the operation, and the sequence of `asyncio.sleep` durations. -/
structure RetryRun (α ε : Type) where
  result : Except ε α
  invocations : Nat
  sleeps : List ℚ

/-- `min(initial_delay * (exponential_base ** attempt), max_delay)`. -/
def backoffDelay (initialDelay maxDelay base : ℚ) (attempt : Nat) : ℚ :=
  min (initialDelay * base ^ attempt) maxDelay

/-- The slept duration of attempt `a`: `delay = min(initial_delay *
exponential_base ** attempt, max_delay)`, then `delay = delay * (0.5 +
random.random())` when jitter is on. -/
def jitteredDelay (initialDelay maxDelay base : ℚ) (jitter : Bool) (rand : Nat → ℚ)
    (a : Nat) : ℚ :=
  if jitter then backoffDelay initialDelay maxDelay base a * (1 / 2 + rand a)
  else backoffDelay initialDelay maxDelay base a

/-- The loop body of `retry_with_exponential_backoff` (delays over ℚ; the
draws of `random.random()` are supplied by `rand`).  The second argument is
the number of retries remaining: on a retryable error with none left the loop
is at `attempt == max_retries` and re-raises; a non-allow-listed error is not
caught by the `except` clause and propagates with no sleep. -/
def retryBackoffGo {α ε : Type} (op : Nat → OpOutcome α ε) (retryOn : ε → Bool)
    (initialDelay maxDelay base : ℚ) (jitter : Bool) (rand : Nat → ℚ)
    (attempt : Nat) : Nat → List ℚ → RetryRun α ε
  | 0, sleeps =>
    match op attempt with
    | .ok a => ⟨.ok a, attempt + 1, sleeps⟩
    | .raise e => ⟨.error e, attempt + 1, sleeps⟩
  | f + 1, sleeps =>
    match op attempt with
    | .ok a => ⟨.ok a, attempt + 1, sleeps⟩
    | .raise e =>
      if retryOn e then
        retryBackoffGo op retryOn initialDelay maxDelay base jitter rand
          (attempt + 1) f
          (sleeps ++ [jitteredDelay initialDelay maxDelay base jitter rand attempt])
      else ⟨.error e, attempt + 1, sleeps⟩

/-- `retry_with_exponential_backoff(func, max_retries, initial_delay,
max_delay, exponential_base, jitter, exceptions)`. -/
def retryWithBackoff {α ε : Type} (op : Nat → OpOutcome α ε) (retryOn : ε → Bool)
    (maxRetries : Nat) (initialDelay maxDelay base : ℚ) (jitter : Bool)
    (rand : Nat → ℚ) : RetryRun α ε :=
  retryBackoffGo op retryOn initialDelay maxDelay base jitter rand 0 maxRetries []

/-- One task running `AdapterFactory.get_adapters_for_account` for the same
cold account.  `pc = 0`: about to run the synchronous membership check (and,
on a miss, enter `_create_adapters_for_account`, which suspends at its first
`await connect()`); `pc = 1`: suspended inside that call; `pc = 2`: returned.
`myInit` is the identity of the adapter map this task's own initialization
builds; `retVal` the identity of the map the task returns. -/
structure FactoryTask where
  pc : Nat
  myInit : Option Nat
  retVal : Option Nat
  deriving Repr, DecidableEq

/-- Shared state: the `_adapters_by_account` entry for the account (`none` =
absent) holding the identity of the cached map, the number of initializations
started, and the two tasks. -/
structure FactoryState where
  cache : Option Nat
  initCount : Nat
  taskA : FactoryTask
  taskB : FactoryTask
  deriving Repr, DecidableEq

/-- One cooperative step of a task.  At `pc = 0` the membership check and the
entry into `_create_adapters_for_account` run atomically (no await between
them); the insert into the dict and the read that builds the return value run
atomically after the create returns (`pc = 1 → 2`).  A cache hit at `pc = 0`
returns the cached map directly. -/
def factoryTaskStep (cache : Option Nat) (initCount : Nat) (t : FactoryTask) :
    Option Nat × Nat × FactoryTask :=
  match t.pc with
  | 0 =>
    match cache with
    | some m => (cache, initCount, ⟨2, t.myInit, some m⟩)
    | none => (cache, initCount + 1, ⟨1, some initCount, t.retVal⟩)
  | 1 =>
    match t.myInit with
    | some k => (some k, initCount, ⟨2, t.myInit, some k⟩)
    | none => (cache, initCount, t)
  | _ => (cache, initCount, t)

/-- Run one scheduled step (`false` steps task A, `true` steps task B). -/
def factoryStep (s : FactoryState) (who : Bool) : FactoryState :=
  if who then
    let r := factoryTaskStep s.cache s.initCount s.taskB
    ⟨r.1, r.2.1, s.taskA, r.2.2⟩
  else
    let r := factoryTaskStep s.cache s.initCount s.taskA
    ⟨r.1, r.2.1, r.2.2, s.taskB⟩

/-- Two concurrent requests for the same cold account, under a schedule of
cooperative steps. -/
def factoryRun (sched : List Bool) : FactoryState :=
  sched.foldl factoryStep ⟨none, 0, ⟨0, none, none⟩, ⟨0, none, none⟩⟩

/-- A relational fetch stub returning no rows. -/
def pgFetchEmpty : String → List Json → List Row := fun _ _ => []

/-- A relational fetch stub returning three rows for every query. -/
def pgFetchThree : String → List Json → List Row :=
  fun _ _ => [[("a", Json.num 1)], [("a", Json.num 2)], [("a", Json.num 3)]]

/-- A document database stub whose aggregation yields one document. -/
def mongoDbOne : String → List Json → List Row := fun _ _ => [[("a", Json.num 1)]]

/-- A document database stub whose aggregation yields nothing. -/
def mongoDbEmpty : String → List Json → List Row := fun _ _ => []

/-- The S2-style single-database document plan: one sub-query with
`query_type` normalized to `mongodb`, a pipeline without a `$limit` stage, and
the valid collection name `orders`. -/
def planOrders : QueryPlan :=
  ⟨["mongodb"],
   [⟨"mongodb", "mongodb", .arr [.obj [("$match", .obj [])]], none, none, some "orders"⟩]⟩

/-- The configured model name (`settings.GEMINI_MODEL`'s default). -/
def configuredModel : String := "gemini-2.0-flash-exp"

/-- Transport oracle for scenario S6: the configured model's first call
answers with the bare operator snippet; every other call would answer with a
structurally valid plan, so any fallback invocation would be visible in the
outcome. -/
def gemOracleSum : String → Nat → GemCall := fun m i =>
  if m == configuredModel && i == 0 then .respond [["\x7b\"$sum\":1\x7d"]]
  else .respond [["\x7b\"databases\":[],\"queries\":[]\x7d"]]

/-- The plan JSON the fallback model answers in the extraction-failure
scenario. -/
def planJsonText : String :=
  "\x7b\"databases\":[\"postgres\"],\"queries\":[\x7b\"database\":\"postgres\",\"query_type\":\"sql\",\"query\":\"SELECT 1\",\"parameters\":[],\"collection\":null\x7d]\x7d"

/-- Transport oracle for the extraction-failure scenario: the configured
model answers text with no JSON object in it; the fallback model answers a
well-formed plan. -/
def gemOracleNoJson : String → Nat → GemCall := fun m _ =>
  if m == configuredModel then .respond [["no json content here"]]
  else .respond [[planJsonText]]

/-- The plan parsed from `planJsonText`. -/
def planFromFallback : QueryPlan :=
  ⟨["postgres"], [⟨"postgres", "sql", .str "SELECT 1", some [], none, none⟩]⟩

/-- The inner `stages` list of the collection-from-pipeline fixture. -/
def innerStages : List Json := [.obj [("$match", .obj [])]]

/-- A first pipeline stage carrying `collection` and `stages` keys, the shape
`execute` consumes when no collection argument is supplied. -/
def stageWithInner : Json :=
  .obj [("collection", .str "users"), ("stages", .arr innerStages)]

/-- What `execute` produces on `[stageWithInner]`: the `$limit` append lands
on the inner `stages` list; the caller's outer one-element list keeps its
length. -/
def c10Out : MongoExecOut :=
  ⟨[], [.obj [("collection", .str "users"), ("stages", .arr (innerStages ++ [limitStage 10000]))]],
   "users", innerStages ++ [limitStage 10000]⟩

/-- The S4 security context: mask `email` and `phone` of `users`. -/
def ctxMasks : SecurityContext :=
  ⟨"u1", "analyst", none, [], [], [("users", ["email", "phone"])]⟩

/-- The S4 result rows. -/
def rowsS4 : List Row :=
  [[("id", .num 1), ("name", .str "A"), ("email", .str "a@x"), ("phone", .str "1")],
   [("id", .num 2), ("name", .str "B")]]

/-- An operation that fails on every invocation (retry-engine witness). -/
def opAlwaysFails : Nat → OpOutcome Unit Unit := fun _ => .raise ()

/-- An allow-list accepting every error (retry-engine witness). -/
def alwaysRetry : Unit → Bool := fun _ => true

/-- A degenerate `random.random()` draw sequence. -/
def randZero : Nat → ℚ := fun _ => 0

/-- C1: the claim says the executor hands the document adapter the sub-query
pipeline and the plan's collection name, so that execution targets collection
`orders` with a `\x7b"$limit": 10000\x7d` stage appended.  On the code,
`_execute_single_db` passes the singleton list `[collection]` as the
`collection` argument; `_validate_collection_name` rejects every non-string,
so the call raises the invalid-collection `ValueError` and never reaches the
aggregation — although the same call with the string `"orders"` itself
succeeds exactly as the claim describes. -/
theorem c1_single_db_document_dispatch :
    (executeSingleDb pgFetchEmpty mongoDbOne planOrders).result =
      .error (.mongoValueError .invalidCollectionName) ∧
    (executeSingleDb pgFetchEmpty mongoDbOne planOrders).adapterCalls = 1 ∧
    MongoDBAdapter.execute mongoDbOne [.obj [("$match", .obj [])]] (.pyStr "orders") 10000 =
      .ok ⟨[[("a", .num 1)]], [.obj [("$match", .obj [])], limitStage 10000], "orders",
           [.obj [("$match", .obj [])], limitStage 10000]⟩ :=
  ⟨rfl, rfl, rfl⟩

/-- C6: the JSON extractor returns `\x7b"x": 1\x7d` on all four robustness
inputs — fenced block with surrounding prose, bare object, object with a
trailing comma, and object embedded in noise. -/
theorem c6_extraction_robustness :
    extractJson "any prefix```json\n\x7b\"x\":1\x7d\n``` suffix" = .ok (.obj [("x", .num 1)]) ∧
    extractJson "\x7b\"x\":1\x7d" = .ok (.obj [("x", .num 1)]) ∧
    extractJson "\x7b\"x\":1,\x7d" = .ok (.obj [("x", .num 1)]) ∧
    extractJson "noise \x7b \"x\":1 \x7d noise" = .ok (.obj [("x", .num 1)]) :=
  ⟨rfl, rfl, rfl, rfl⟩

/-- C8: the claim says a name failing `^[A-Za-z_][A-Za-z0-9_]*$` is rejected,
and every name reaching the database matches the pattern.  On the code,
`"orders\n"` fails the pattern yet `_validate_collection_name` accepts it,
because Python's `re.match` lets `$` match just before one trailing newline —
so a document query can reach the database with a collection name outside the
allow-list language. -/
theorem c8_collection_name_trailing_newline :
    validateCollectionNameStr "orders\n" = true ∧
    collPatternFull "orders\n".data = false ∧
    collPatternFull "orders".data = true :=
  ⟨rfl, rfl, rfl⟩

/-- C9: the claim (and the method's own docstring) promise single-flight
initialization per cold account.  The code's check-then-act around the
`await` has no lock: under the schedule where both tasks run their membership
check before either create completes, both initializations run and the two
requests return two different adapter maps. -/
theorem c9_cold_account_double_init :
    (factoryRun [false, true, false, true]).initCount = 2 ∧
    (factoryRun [false, true, false, true]).taskA.retVal = some 0 ∧
    (factoryRun [false, true, false, true]).taskB.retVal = some 1 ∧
    (factoryRun [false, true, false, true]).taskA.retVal ≠
      (factoryRun [false, true, false, true]).taskB.retVal :=
  ⟨rfl, rfl, rfl, by decide⟩

/-- C2, counterexample: `PostgresAdapter.execute` never truncates in code.  A
query whose uppercase form contains the substring `LIMIT` (here inside the
identifier `unlimited`) is sent unmodified, and the three fetched rows are
returned even though the cap is 2 — refuting "the sequence of records
returned by execute has length at most the cap". -/
theorem c2_postgres_uncapped_counterexample :
    (PostgresAdapter.execute pgFetchThree "SELECT unlimited FROM t" [] 2).rows.length = 3 ∧
    ¬ (PostgresAdapter.execute pgFetchThree "SELECT unlimited FROM t" [] 2).rows.length ≤ 2 :=
  ⟨rfl, by decide⟩

/-- C5, counterexample: after the configured model's output fails JSON
extraction (`InvalidJSONError`), the engine does invoke the fallback model —
one invocation of each model — and returns the fallback's plan, refuting
"no further model invocation occurs and the error surfaces". -/
theorem c5_fallback_after_invalid_json_counterexample :
    (generateQueryPlan configuredModel gemOracleNoJson).calls =
      [(configuredModel, 1), (fallbackModel, 1)] ∧
    (generateQueryPlan configuredModel gemOracleNoJson).result = .ok planFromFallback :=
  ⟨rfl, rfl⟩

/-- C10, counterexample: with a falsy `collection` argument and a first stage
carrying `collection`/`stages` keys, the `$limit` append lands on the inner
`stages` list: the caller's outer list is not the list that grows, refuting
"a `$limit` stage is appended to the very list object the caller passed" for
that pipeline. -/
theorem c10_inner_stages_counterexample :
    MongoDBAdapter.execute mongoDbEmpty [stageWithInner] .pyNone 10000 = .ok c10Out ∧
    c10Out.callerPipeline ≠ [stageWithInner] ++ [limitStage 10000] := by
  refine ⟨rfl, fun h => ?_⟩
  have hlen := congrArg List.length h
  simp [c10Out] at hlen

theorem rowGet_cons (kv : String × Json) (l : Row) (g : String) :
    rowGet (kv :: l) g = if (kv.1 == g) = true then some kv.2 else rowGet l g := by
  by_cases h : kv.1 == g
  · simp [rowGet, List.find?_cons_of_pos, h]
  · simp [rowGet, List.find?_cons_of_neg, h]

theorem rowSet_cons (kv : String × Json) (l : Row) (f : String) (v : Json) :
    rowSet (kv :: l) f v = (if (kv.1 == f) = true then (kv.1, v) else kv) :: rowSet l f v := rfl

theorem rowHasField_cons (kv : String × Json) (l : Row) (g : String) :
    rowHasField (kv :: l) g = ((kv.1 == g) || rowHasField l g) := by
  simp [rowHasField]

theorem rowHasField_rowSet (row : Row) (f g : String) (v : Json) :
    rowHasField (rowSet row f v) g = rowHasField row g := by
  induction row with
  | nil => rfl
  | cons kv rest ih =>
    rw [rowSet_cons]
    by_cases h : kv.1 == f
    · rw [rowHasField_cons, rowHasField_cons, ih, h]
      simp
    · simp only [Bool.not_eq_true] at h
      rw [rowHasField_cons, rowHasField_cons, ih, h]
      simp

theorem rowGet_rowSet_self (row : Row) (f : String) (v : Json)
    (h : rowHasField row f = true) : rowGet (rowSet row f v) f = some v := by
  induction row with
  | nil => simp [rowHasField] at h
  | cons kv rest ih =>
    rw [rowSet_cons]
    by_cases hk : kv.1 == f
    · rw [hk]
      simp only [if_true]
      rw [rowGet_cons]
      simp [hk]
    · simp only [Bool.not_eq_true] at hk
      rw [rowHasField_cons, hk, Bool.false_or] at h
      rw [hk]
      simp only [Bool.false_eq_true, if_false]
      rw [rowGet_cons, hk]
      simp only [Bool.false_eq_true, if_false]
      exact ih h

theorem rowGet_rowSet_other (row : Row) (f g : String) (v : Json) (h : (g == f) = false) :
    rowGet (rowSet row f v) g = rowGet row g := by
  induction row with
  | nil => rfl
  | cons kv rest ih =>
    rw [rowSet_cons, rowGet_cons kv rest]
    by_cases hk : kv.1 == f
    · have h1 : kv.1 = f := by simpa using hk
      have h2 : g ≠ f := by simpa using h
      have hg : (kv.1 == g) = false := by
        simp only [h1]
        simp only [beq_eq_false_iff_ne]
        exact fun hc => h2 hc.symm
      rw [hk]
      simp only [if_true]
      rw [rowGet_cons]
      simp only [hg, Bool.false_eq_true, if_false]
      exact ih
    · simp only [Bool.not_eq_true] at hk
      rw [hk]
      simp only [Bool.false_eq_true, if_false]
      rw [rowGet_cons]
      by_cases hg : kv.1 == g
      · simp [hg]
      · rw [ih]

theorem maskFields_cons (f : String) (fs : List String) (row : Row) :
    maskFields (f :: fs) row =
      maskFields fs (if rowHasField row f = true then rowSet row f maskedValue else row) := rfl

theorem rowHasField_maskFields (fs : List String) (row : Row) (g : String) :
    rowHasField (maskFields fs row) g = rowHasField row g := by
  induction fs generalizing row with
  | nil => rfl
  | cons f fs ih =>
    rw [maskFields_cons, ih]
    by_cases h : rowHasField row f <;> simp [h, rowHasField_rowSet]

theorem rowGet_maskFields_not_mem (fs : List String) (row : Row) (g : String)
    (h : g ∉ fs) : rowGet (maskFields fs row) g = rowGet row g := by
  induction fs generalizing row with
  | nil => rfl
  | cons f fs ih =>
    have hgf : (g == f) = false := by
      simp only [List.mem_cons, not_or] at h
      simpa using h.1
    have hrest : g ∉ fs := by
      simp only [List.mem_cons, not_or] at h
      exact h.2
    rw [maskFields_cons]
    by_cases hp : rowHasField row f
    · simp only [hp, if_true]
      rw [ih _ hrest, rowGet_rowSet_other _ _ _ _ hgf]
    · simp only [hp, Bool.false_eq_true, if_false]
      exact ih _ hrest

theorem rowGet_maskFields_or (fs : List String) (row : Row) (g : String) :
    rowGet (maskFields fs row) g = rowGet row g ∨
      rowGet (maskFields fs row) g = some maskedValue := by
  induction fs generalizing row with
  | nil => exact Or.inl rfl
  | cons f fs ih =>
    rw [maskFields_cons]
    by_cases hp : rowHasField row f
    · simp only [hp, if_true]
      by_cases hgf : (g == f) = true
      · have hgf2 : g = f := by simpa using hgf
        subst hgf2
        rcases ih (rowSet row g maskedValue) with h1 | h1
        · rw [h1, rowGet_rowSet_self _ _ _ hp]
          exact Or.inr rfl
        · exact Or.inr h1
      · have hgf2 : (g == f) = false := by simpa using hgf
        rcases ih (rowSet row f maskedValue) with h1 | h1
        · rw [h1, rowGet_rowSet_other _ _ _ _ hgf2]
          exact Or.inl rfl
        · exact Or.inr h1
    · simp only [hp, Bool.false_eq_true, if_false]
      exact ih row

theorem rowGet_maskFields_mem (fs : List String) (row : Row) (f : String)
    (hmem : f ∈ fs) (hpres : rowHasField row f = true) :
    rowGet (maskFields fs row) f = some maskedValue := by
  induction fs generalizing row with
  | nil => cases hmem
  | cons g gs ih =>
    rw [maskFields_cons]
    rcases List.mem_cons.mp hmem with he | hin
    · subst he
      simp only [hpres, if_true]
      rcases rowGet_maskFields_or gs (rowSet row f maskedValue) f with h1 | h1
      · rw [h1, rowGet_rowSet_self _ _ _ hpres]
      · exact h1
    · by_cases hp : rowHasField row g
      · simp only [hp, if_true]
        exact ih _ hin (by rw [rowHasField_rowSet]; exact hpres)
      · simp only [hp, Bool.false_eq_true, if_false]
        exact ih _ hin hpres

theorem maskFields_absent (fs : List String) (row : Row)
    (h : ∀ f ∈ fs, rowHasField row f = false) : maskFields fs row = row := by
  induction fs with
  | nil => rfl
  | cons f fs ih =>
    rw [maskFields_cons, h f (List.mem_cons_self f fs)]
    simp only [Bool.false_eq_true, if_false]
    exact ih fun g hg => h g (List.mem_cons_of_mem f hg)

theorem maskRow_cons (tf : String × List String) (rest : List (String × List String))
    (row : Row) : maskRow (tf :: rest) row = maskRow rest (maskFields tf.2 row) := rfl

theorem rowHasField_maskRow (masks : List (String × List String)) (row : Row) (g : String) :
    rowHasField (maskRow masks row) g = rowHasField row g := by
  induction masks generalizing row with
  | nil => rfl
  | cons tf rest ih =>
    rw [maskRow_cons, ih, rowHasField_maskFields]

theorem rowGet_maskRow_or (masks : List (String × List String)) (row : Row) (g : String) :
    rowGet (maskRow masks row) g = rowGet row g ∨
      rowGet (maskRow masks row) g = some maskedValue := by
  induction masks generalizing row with
  | nil => exact Or.inl rfl
  | cons tf rest ih =>
    rw [maskRow_cons]
    rcases ih (maskFields tf.2 row) with h1 | h1
    · rw [h1]
      exact rowGet_maskFields_or tf.2 row g
    · exact Or.inr h1

theorem rowGet_maskRow_mem (masks : List (String × List String)) (row : Row)
    (tf : String × List String) (f : String) (hmem : tf ∈ masks) (hf : f ∈ tf.2)
    (hpres : rowHasField row f = true) :
    rowGet (maskRow masks row) f = some maskedValue := by
  induction masks generalizing row with
  | nil => cases hmem
  | cons hd rest ih =>
    rw [maskRow_cons]
    rcases List.mem_cons.mp hmem with he | hin
    · subst he
      have h1 := rowGet_maskFields_mem tf.2 row f hf hpres
      rcases rowGet_maskRow_or rest (maskFields tf.2 row) f with h2 | h2
      · rw [h2, h1]
      · exact h2
    · exact ih _ hin (by rw [rowHasField_maskFields]; exact hpres)

theorem rowGet_maskRow_not_mem (masks : List (String × List String)) (row : Row)
    (g : String) (h : ∀ tf ∈ masks, g ∉ tf.2) :
    rowGet (maskRow masks row) g = rowGet row g := by
  induction masks generalizing row with
  | nil => rfl
  | cons hd rest ih =>
    rw [maskRow_cons, ih _ fun tf htf => h tf (List.mem_cons_of_mem hd htf)]
    exact rowGet_maskFields_not_mem hd.2 row g (h hd (List.mem_cons_self hd rest))

theorem maskRow_absent (masks : List (String × List String)) (row : Row)
    (h : ∀ tf ∈ masks, ∀ f ∈ tf.2, rowHasField row f = false) : maskRow masks row = row := by
  induction masks with
  | nil => rfl
  | cons hd rest ih =>
    rw [maskRow_cons, maskFields_absent hd.2 row (h hd (List.mem_cons_self hd rest))]
    exact ih fun tf htf => h tf (List.mem_cons_of_mem hd htf)

/-- C3: for every result list and security context, for every row index:
each field of any `(table, fields)` mask entry that is present in the row is
emitted as the literal `"***MASKED***"`; a field listed in no mask set keeps
its original value; and a row containing none of the masked fields is emitted
unchanged (the output also keeps the row count). -/
theorem c3_field_masking (results : List Row) (ctx : SecurityContext) (i : Nat)
    (hi : i < results.length) :
    (applyFieldMasking results ctx).length = results.length ∧
    (∀ table fields f, (table, fields) ∈ ctx.field_masks → f ∈ fields →
      rowHasField (results.getD i []) f = true →
      rowGet ((applyFieldMasking results ctx).getD i []) f = some maskedValue) ∧
    (∀ f, (∀ tf ∈ ctx.field_masks, f ∉ tf.2) →
      rowGet ((applyFieldMasking results ctx).getD i []) f = rowGet (results.getD i []) f) ∧
    ((∀ tf ∈ ctx.field_masks, ∀ f ∈ tf.2, rowHasField (results.getD i []) f = false) →
      (applyFieldMasking results ctx).getD i [] = results.getD i []) := by
  by_cases hE : ctx.field_masks.isEmpty
  · have hmasks : ctx.field_masks = [] := List.isEmpty_iff.mp hE
    have hout : applyFieldMasking results ctx = results := by
      simp [applyFieldMasking, hE]
    refine ⟨by rw [hout], ?_, ?_, ?_⟩
    · intro table fields f hmem _ _
      rw [hmasks] at hmem
      cases hmem
    · intro f _
      rw [hout]
    · intro _
      rw [hout]
  · have hout : applyFieldMasking results ctx = results.map (maskRow ctx.field_masks) := by
      simp [applyFieldMasking, hE]
    have hrow : (applyFieldMasking results ctx).getD i [] =
        maskRow ctx.field_masks (results.getD i []) := by
      rw [hout]
      have h1 : (results.map (maskRow ctx.field_masks))[i]? =
          some (maskRow ctx.field_masks results[i]) := by
        rw [List.getElem?_map, List.getElem?_eq_getElem hi]
        rfl
      have h2 : results[i]? = some results[i] := List.getElem?_eq_getElem hi
      simp [List.getD, h1, h2]
    refine ⟨by rw [hout, List.length_map], ?_, ?_, ?_⟩
    · intro table fields f hmem hf hpres
      rw [hrow]
      exact rowGet_maskRow_mem ctx.field_masks _ (table, fields) f hmem hf hpres
    · intro f hnot
      rw [hrow]
      exact rowGet_maskRow_not_mem ctx.field_masks _ f hnot
    · intro habs
      rw [hrow]
      exact maskRow_absent ctx.field_masks _ habs

/-- C3 witness: scenario S4 — masks `\x7b"users": ["email", "phone"]\x7d`; in
the first row the present field `email` is emitted masked and the unlisted
field `name` keeps its value; the second row, which lacks both masked fields,
is emitted unchanged. -/
theorem c3_field_masking_witness :
    0 < rowsS4.length ∧
    rowGet ((applyFieldMasking rowsS4 ctxMasks).getD 0 []) "email" = some maskedValue ∧
    rowGet ((applyFieldMasking rowsS4 ctxMasks).getD 0 []) "name" =
      rowGet (rowsS4.getD 0 []) "name" ∧
    (applyFieldMasking rowsS4 ctxMasks).getD 1 [] = rowsS4.getD 1 [] := by
  refine ⟨by decide, ?_, ?_, ?_⟩
  · exact (c3_field_masking rowsS4 ctxMasks 0 (by decide)).2.1 "users" ["email", "phone"]
      "email" (by decide) (by decide) (by decide)
  · exact (c3_field_masking rowsS4 ctxMasks 0 (by decide)).2.2.1 "name" (by decide)
  · exact (c3_field_masking rowsS4 ctxMasks 1 (by decide)).2.2.2 (by decide)

/-- C4: a payload that is not an object with both `databases` and `queries`
lists makes `_process_response` raise `InvalidQueryPlanError`; the fallback
loop re-raises `InvalidQueryPlanError` right after the model that produced it
(its call trace gains only that model's entry, so no fallback model is
invoked); and when plan generation errors, `execute_query` propagates the
error with zero adapter `execute` calls. -/
theorem c4_invalid_plan_no_fallback
    (j : Json) (gem : String → Nat → GemCall) (m : String) (rest : List String)
    (last : Option LastErr) (acc : List (String × Nat)) (resp : Response)
    (modelName : String) (validatorSafe : Nat → Bool)
    (pgFetch : String → List Json → List Row) (mongoDb : String → List Json → List Row)
    (dryRun skipValidation : Bool) (ctx : SecurityContext) (e : GenErr) :
    (structuralPlanShape j = false → processPlanData j = .error .invalidPlan) ∧
    ((geminiRetry (gem m) 3).1 = .ok resp → processResponse resp = .error .invalidPlan →
      genLoop gem (m :: rest) last acc =
        ⟨.error .invalidPlan, acc ++ [(m, (geminiRetry (gem m) 3).2)]⟩) ∧
    ((generateQueryPlan modelName gem).result = .error e →
      executeQueryModel modelName gem validatorSafe pgFetch mongoDb dryRun skipValidation ctx =
        ⟨.error (.gen e), 0⟩) := by
  refine ⟨?_, ?_, ?_⟩
  · intro h
    cases j with
    | obj kvs =>
      simp only [structuralPlanShape] at h
      simp only [processPlanData]
      split
      · rename_i ds qs hd hq
        rw [hd, hq] at h
        simp at h
      · rfl
    | null => rfl
    | bool b => rfl
    | num n => rfl
    | str s => rfl
    | arr xs => rfl
  · intro h1 h2
    simp only [genLoop, h1, h2]
  · intro h
    simp only [executeQueryModel, h]

/-- C4 witness: scenario S6 — the model answers `\x7b"$sum": 1\x7d`; the
structural validation raises `InvalidQueryPlanError` after one invocation of
the configured model only, and the request makes no adapter call. -/
theorem c4_invalid_plan_no_fallback_witness :
    processPlanData (.obj [("$sum", .num 1)]) = .error .invalidPlan ∧
    genLoop gemOracleSum (modelsToTry configuredModel) none [] =
      ⟨.error .invalidPlan, [(configuredModel, 1)]⟩ ∧
    executeQueryModel configuredModel gemOracleSum (fun _ => true) pgFetchEmpty mongoDbEmpty
      false false ctxMasks = ⟨.error (.gen .invalidPlan), 0⟩ := by
  have h := c4_invalid_plan_no_fallback (.obj [("$sum", .num 1)]) gemOracleSum
    configuredModel [fallbackModel] none [] [["\x7b\"$sum\":1\x7d"]] configuredModel
    (fun _ => true) pgFetchEmpty mongoDbEmpty false false ctxMasks .invalidPlan
  refine ⟨h.1 rfl, ?_, h.2.2 rfl⟩
  have h2 := h.2.1 rfl rfl
  exact h2

/-- The fallback loop only appends to its accumulated call list: running it
with accumulator `acc` yields the same result as with `[]`, with `acc`
prefixed to the calls. -/
theorem genLoop_calls_acc (gem : String → Nat → GemCall) (ms : List String)
    (last : Option LastErr) (acc : List (String × Nat)) :
    genLoop gem ms last acc =
      ⟨(genLoop gem ms last []).result, acc ++ (genLoop gem ms last []).calls⟩ := by
  induction ms generalizing last acc with
  | nil => simp [genLoop]
  | cons m rest ih =>
    simp only [genLoop]
    cases hr : (geminiRetry (gem m) 3).1 with
    | ok resp =>
      cases hp : processResponse resp with
      | ok plan => simp [hp]
      | error e =>
        cases e with
        | invalidPlan => simp [hp]
        | responseErr =>
          simp only [hp]
          rw [ih (some (.engine .responseErr)) (acc ++ [(m, (geminiRetry (gem m) 3).2)]),
            ih (some (.engine .responseErr)) ([] ++ [(m, (geminiRetry (gem m) 3).2)])]
          simp
        | invalidJSON =>
          simp only [hp]
          rw [ih (some (.engine .invalidJSON)) (acc ++ [(m, (geminiRetry (gem m) 3).2)]),
            ih (some (.engine .invalidJSON)) ([] ++ [(m, (geminiRetry (gem m) 3).2)])]
          simp
        | pyRuntime =>
          simp only [hp]
          rw [ih (some (.engine .pyRuntime)) (acc ++ [(m, (geminiRetry (gem m) 3).2)]),
            ih (some (.engine .pyRuntime)) ([] ++ [(m, (geminiRetry (gem m) 3).2)])]
          simp
    | error e =>
      dsimp only
      rw [ih (some (.api e)) (acc ++ [(m, (geminiRetry (gem m) 3).2)]),
        ih (some (.api e)) ([] ++ [(m, (geminiRetry (gem m) 3).2)])]
      simp

/-- One step of the fallback loop when the model's transport succeeded but
processing failed with anything other than `InvalidQueryPlanError`: the loop
records the exception and moves to the next model. -/
theorem genLoop_cons_engine_err (gem : String → Nat → GemCall) (m : String)
    (rest : List String) (last : Option LastErr) (acc : List (String × Nat))
    (resp : Response) (e : EngineErr)
    (hr : (geminiRetry (gem m) 3).1 = .ok resp)
    (hp : processResponse resp = .error e) (hne : e ≠ EngineErr.invalidPlan) :
    genLoop gem (m :: rest) last acc =
      genLoop gem rest (some (.engine e)) (acc ++ [(m, (geminiRetry (gem m) 3).2)]) := by
  simp only [genLoop, hr, hp]

/-- C5 amended: when the configured model's first call succeeds at transport
but its output fails JSON extraction (`InvalidJSONError`), the engine does not
retry that model (exactly one invocation of it), yet the error does not
surface: the loop proceeds to the fallback model, and the overall outcome is
whatever the loop over `[fallbackModel]` produces (a plan if the fallback
parses, else a `GeminiAPIError` wrapping the last failure). -/
theorem c5_invalid_json_goes_to_fallback (modelName : String)
    (gem : String → Nat → GemCall) (r : Response)
    (hne : modelName ≠ fallbackModel)
    (h0 : gem modelName 0 = .respond r)
    (hext : processResponse r = .error .invalidJSON) :
    generateQueryPlan modelName gem =
      ⟨(genLoop gem [fallbackModel] (some (.engine .invalidJSON)) []).result,
       (modelName, 1) :: (genLoop gem [fallbackModel] (some (.engine .invalidJSON)) []).calls⟩ := by
  have hm : modelsToTry modelName = [modelName, fallbackModel] := by
    simp [modelsToTry, hne]
  have hr : geminiRetry (gem modelName) 3 = (.ok r, 1) := by
    simp [geminiRetry, geminiRetryGo, h0]
  have hstep := genLoop_cons_engine_err gem modelName [fallbackModel] none [] r .invalidJSON
    (by rw [hr]) hext (fun hc => by cases hc)
  unfold generateQueryPlan
  rw [hm, hstep, genLoop_calls_acc gem [fallbackModel] (some (.engine .invalidJSON))
    ([] ++ [(modelName, (geminiRetry (gem modelName) 3).2)])]
  rw [hr]
  simp

/-- C5 witness: the concrete no-JSON scenario — the configured model is
invoked once, the fallback once, and the fallback's plan is returned. -/
theorem c5_invalid_json_goes_to_fallback_witness :
    generateQueryPlan configuredModel gemOracleNoJson =
      ⟨(genLoop gemOracleNoJson [fallbackModel] (some (.engine .invalidJSON)) []).result,
       (configuredModel, 1) ::
         (genLoop gemOracleNoJson [fallbackModel] (some (.engine .invalidJSON)) []).calls⟩ :=
  c5_invalid_json_goes_to_fallback configuredModel gemOracleNoJson
    [["no json content here"]] (by decide) rfl rfl

/-- `_validate_collection_name` accepts no empty string. -/
theorem validateCollectionNameStr_nonempty (c : String)
    (h : validateCollectionNameStr c = true) : c.isEmpty = false := by
  cases he : c.isEmpty
  · rfl
  · rw [validateCollectionNameStr] at h
    rw [he] at h
    simp at h

/-- C10 amended: with a truthy, valid string `collection` argument and no
`$limit` stage in the pipeline, the adapter appends the `$limit` stage to the
very list the caller passed, and the append is visible to the caller; the
collection-from-pipeline path instead appends to the inner `stages` list (the
counterexample), so the in-place append reaches the caller's own list exactly
on the collection-argument path. -/
theorem c10_caller_pipeline_append (db : String → List Json → List Row)
    (pipeline : List Json) (c : String) (maxDocs : Nat)
    (hval : validateCollectionNameStr c = true)
    (hnl : mongoHasLimit pipeline = false) :
    MongoDBAdapter.execute db pipeline (.pyStr c) maxDocs =
      .ok ⟨((db c (pipeline ++ [limitStage maxDocs])).take maxDocs).map stringifyId,
           pipeline ++ [limitStage maxDocs], c, pipeline ++ [limitStage maxDocs]⟩ := by
  have hne := validateCollectionNameStr_nonempty c hval
  simp [MongoDBAdapter.execute, CollArg.truthy, hne, hval, hnl]

/-- C10 witness: the S2 pipeline and collection `orders` — the caller's list
is extended in place by `\x7b"$limit": 10000\x7d`. -/
theorem c10_caller_pipeline_append_witness :
    validateCollectionNameStr "orders" = true ∧
    mongoHasLimit [Json.obj [("$match", Json.obj [])]] = false ∧
    MongoDBAdapter.execute mongoDbOne [Json.obj [("$match", Json.obj [])]] (.pyStr "orders")
      10000 =
      .ok ⟨((mongoDbOne "orders" ([Json.obj [("$match", Json.obj [])]] ++ [limitStage 10000])).take
              10000).map stringifyId,
           [Json.obj [("$match", Json.obj [])]] ++ [limitStage 10000], "orders",
           [Json.obj [("$match", Json.obj [])]] ++ [limitStage 10000]⟩ :=
  ⟨rfl, rfl,
   c10_caller_pipeline_append mongoDbOne [Json.obj [("$match", Json.obj [])]] "orders" 10000
     rfl rfl⟩

/-- C2 amended: the document adapter's `to_list(length=max_docs)` caps every
successful result at `max_docs`; the relational adapter, by contrast, returns
exactly what `conn.fetch` yields (bounded by `max_rows` only when the fetch
is) and enforces the cap solely by appending ` LIMIT max_rows` to the SQL —
which it does exactly when the uppercased query lacks the substring
`"LIMIT"`. -/
theorem c2_result_caps (db : String → List Json → List Row) (pipeline : List Json)
    (collection : CollArg) (maxDocs : Nat) (out : MongoExecOut)
    (fetch : String → List Json → List Row) (query : String) (params : List Json)
    (maxRows : Nat) :
    (MongoDBAdapter.execute db pipeline collection maxDocs = .ok out →
      out.results.length ≤ maxDocs) ∧
    ((PostgresAdapter.execute fetch query params maxRows).rows =
      fetch (PostgresAdapter.execute fetch query params maxRows).sentQuery params) ∧
    (isSubL "LIMIT".data (upperL query.data) = false →
      (PostgresAdapter.execute fetch query params maxRows).sentQuery =
        String.mk (rstripSemi query.data ++ (" LIMIT " ++ toString maxRows).data)) := by
  refine ⟨?_, rfl, ?_⟩
  · intro h
    unfold MongoDBAdapter.execute at h
    repeat' split at h
    all_goals try cases h
    all_goals dsimp only
    all_goals simp only [List.length_map]
    all_goals exact List.length_take_le _ _
  · intro h
    simp [PostgresAdapter.execute, h]

theorem sleeps_snoc_range (i m b : ℚ) (jt : Bool) (rand : Nat → ℚ) (acc : List ℚ)
    (attempt f : Nat) :
    (acc ++ [jitteredDelay i m b jt rand attempt]) ++
        (List.range f).map (fun t => jitteredDelay i m b jt rand (attempt + 1 + t)) =
      acc ++ (List.range (f + 1)).map (fun t => jitteredDelay i m b jt rand (attempt + t)) := by
  rw [List.append_assoc]
  congr 1
  rw [List.range_succ_eq_map, List.map_cons, List.map_map, List.singleton_append]
  congr 1
  apply List.map_congr_left
  intro t _
  simp only [Function.comp_apply]
  congr 1
  omega

theorem retryBackoffGo_invocations_le {α ε : Type} (op : Nat → OpOutcome α ε)
    (retryOn : ε → Bool) (i m b : ℚ) (jt : Bool) (rand : Nat → ℚ) :
    ∀ (f attempt : Nat) (acc : List ℚ),
      (retryBackoffGo op retryOn i m b jt rand attempt f acc).invocations ≤
        attempt + f + 1 := by
  intro f
  induction f with
  | zero =>
    intro attempt acc
    simp only [retryBackoffGo]
    cases op attempt <;> simp
  | succ f ih =>
    intro attempt acc
    simp only [retryBackoffGo]
    cases hc : op attempt with
    | ok a => simp
    | raise e =>
      by_cases hr : retryOn e
      · simp only [hr, if_true]
        exact le_trans (ih (attempt + 1) _) (by omega)
      · simp only [hr, Bool.false_eq_true, if_false]
        simp

theorem retryBackoffGo_all_fail {α ε : Type} (op : Nat → OpOutcome α ε)
    (retryOn : ε → Bool) (i m b : ℚ) (jt : Bool) (rand : Nat → ℚ) (errs : Nat → ε) :
    ∀ (f attempt : Nat) (acc : List ℚ),
      (∀ a, attempt ≤ a → a ≤ attempt + f → op a = .raise (errs a) ∧ retryOn (errs a) = true) →
      retryBackoffGo op retryOn i m b jt rand attempt f acc =
        ⟨.error (errs (attempt + f)), attempt + f + 1,
         acc ++ (List.range f).map fun t => jitteredDelay i m b jt rand (attempt + t)⟩ := by
  intro f
  induction f with
  | zero =>
    intro attempt acc h
    obtain ⟨h1, _⟩ := h attempt le_rfl (by omega)
    simp only [retryBackoffGo, h1]
    simp
  | succ f ih =>
    intro attempt acc h
    obtain ⟨h1, h2⟩ := h attempt le_rfl (by omega)
    simp only [retryBackoffGo, h1, h2, if_true]
    rw [ih (attempt + 1) _ fun a ha1 ha2 => h a (by omega) (by omega)]
    congr 1
    · rw [show attempt + 1 + f = attempt + (f + 1) from by omega]
    · omega
    · exact sleeps_snoc_range i m b jt rand acc attempt f

theorem retryBackoffGo_nonretryable {α ε : Type} (op : Nat → OpOutcome α ε)
    (retryOn : ε → Bool) (i m b : ℚ) (jt : Bool) (rand : Nat → ℚ) (errs : Nat → ε)
    (e : ε) (k : Nat) (hke : op k = .raise e) (hkr : retryOn e = false) :
    ∀ (jdx : Nat), ∀ (f attempt : Nat) (acc : List ℚ), attempt + jdx = k → jdx ≤ f →
      (∀ a, attempt ≤ a → a < k → op a = .raise (errs a) ∧ retryOn (errs a) = true) →
      retryBackoffGo op retryOn i m b jt rand attempt f acc =
        ⟨.error e, k + 1,
         acc ++ (List.range jdx).map fun t => jitteredDelay i m b jt rand (attempt + t)⟩ := by
  intro jdx
  induction jdx with
  | zero =>
    intro f attempt acc hk _ _
    have hak : attempt = k := by omega
    subst hak
    cases f with
    | zero =>
      simp only [retryBackoffGo, hke]
      simp
    | succ f =>
      simp only [retryBackoffGo, hke, hkr, Bool.false_eq_true, if_false]
      simp
  | succ jdx ih =>
    intro f attempt acc hk hjf h
    cases f with
    | zero => exact absurd hjf (by omega)
    | succ f =>
      obtain ⟨h1, h2⟩ := h attempt le_rfl (by omega)
      simp only [retryBackoffGo, h1, h2, if_true]
      rw [ih f (attempt + 1) _ (by omega) (by omega) fun a ha1 ha2 => h a (by omega) ha2]
      congr 1
      exact sleeps_snoc_range i m b jt rand acc attempt jdx

/-- C7: the retry engine invokes the operation at most `max_retries + 1`
times; when every attempt raises an allow-listed error it sleeps the
exponential-backoff delay `min(initial_delay * base ^ a, max_delay)` after
each attempt `a` but the last — multiplied, when jitter is on, by a factor in
`[1/2, 3/2)` — and re-raises the last error after exactly `max_retries + 1`
invocations; and an error outside the allow-list propagates immediately:
`k + 1` invocations and no sleep after the failing attempt. -/
theorem c7_retry_engine {α ε : Type} (op : Nat → OpOutcome α ε) (retryOn : ε → Bool)
    (maxRetries : Nat) (initialDelay maxDelay base : ℚ) (jitter : Bool)
    (rand : Nat → ℚ) (errs : Nat → ε) (e : ε) (k : Nat)
    (hrand : ∀ n, 0 ≤ rand n ∧ rand n < 1) :
    ((retryWithBackoff op retryOn maxRetries initialDelay maxDelay base jitter
        rand).invocations ≤ maxRetries + 1) ∧
    ((∀ a, a ≤ maxRetries → op a = .raise (errs a) ∧ retryOn (errs a) = true) →
      retryWithBackoff op retryOn maxRetries initialDelay maxDelay base jitter rand =
        ⟨.error (errs maxRetries), maxRetries + 1,
         (List.range maxRetries).map fun a =>
           jitteredDelay initialDelay maxDelay base jitter rand a⟩) ∧
    (jitter = true → ∀ a, ∃ q, 1 / 2 ≤ q ∧ q < 3 / 2 ∧
      jitteredDelay initialDelay maxDelay base jitter rand a =
        backoffDelay initialDelay maxDelay base a * q) ∧
    (k ≤ maxRetries → op k = .raise e → retryOn e = false →
      (∀ a, a < k → op a = .raise (errs a) ∧ retryOn (errs a) = true) →
      retryWithBackoff op retryOn maxRetries initialDelay maxDelay base jitter rand =
        ⟨.error e, k + 1,
         (List.range k).map fun a =>
           jitteredDelay initialDelay maxDelay base jitter rand a⟩) := by
  refine ⟨?_, ?_, ?_, ?_⟩
  · exact le_trans
      (retryBackoffGo_invocations_le op retryOn initialDelay maxDelay base jitter rand
        maxRetries 0 []) (by omega)
  · intro h
    unfold retryWithBackoff
    rw [retryBackoffGo_all_fail op retryOn initialDelay maxDelay base jitter rand errs
      maxRetries 0 [] fun a ha1 ha2 => h a (by omega)]
    congr 1
    · rw [Nat.zero_add]
    · omega
    · simp only [List.nil_append]
      apply List.map_congr_left
      intro t _
      rw [Nat.zero_add]
  · intro hj a
    refine ⟨1 / 2 + rand a, ?_, ?_, ?_⟩
    · have := (hrand a).1
      linarith
    · have := (hrand a).2
      linarith
    · simp [jitteredDelay, hj]
  · intro hk hke hkr h
    unfold retryWithBackoff
    rw [retryBackoffGo_nonretryable op retryOn initialDelay maxDelay base jitter rand errs
      e k hke hkr k maxRetries 0 [] (by omega) hk fun a ha1 ha2 => h a ha2]
    congr 1
    simp only [List.nil_append]
    apply List.map_congr_left
    intro t _
    rw [Nat.zero_add]

/-- C7 witness: three attempts that all raise an allow-listed error with
`max_retries = 2`, `initial_delay = 1`, `max_delay = 10`, `base = 2` and no
jitter: the last error is re-raised after exactly 3 invocations and the
sleeps are `[1, 2]`. -/
theorem c7_retry_engine_witness :
    retryWithBackoff opAlwaysFails alwaysRetry 2 1 10 2 false randZero =
      ⟨.error (), 3, [1, 2]⟩ := by
  have h := (c7_retry_engine opAlwaysFails alwaysRetry 2 1 10 2 false randZero
    (fun _ => ()) () 0 fun n => by norm_num [randZero]).2.1 fun a _ => ⟨rfl, rfl⟩
  rw [h]
  norm_num [List.range_succ, jitteredDelay, backoffDelay]

/-- C2 witness: the mongo cap at a concrete successful execution, and the
rewrite of a query without a `LIMIT` substring. -/
theorem c2_result_caps_witness :
    (MongoDBAdapter.execute mongoDbOne [Json.obj [("$match", Json.obj [])]] (.pyStr "orders")
        10000).isOk = true ∧
    (PostgresAdapter.execute pgFetchThree "SELECT a FROM t;" [] 1000).sentQuery =
      "SELECT a FROM t LIMIT 1000" := by
  constructor
  · rfl
  · have h := (c2_result_caps mongoDbOne [] (.pyStr "orders") 10000
      ⟨[], [], "", []⟩ pgFetchThree "SELECT a FROM t;" [] 1000).2.2 (by decide)
    rw [h]
    rfl

end DbRevel
